import Mathlib

/-!
Shallow embedding of the entitlement core of the affine backend server:
the versioned feature/quota definition table, the per-user activation
ledger (`userFeature` rows), and the operations of `QuotaService`
(`getUserQuota`, `getUserQuotas`, `switchUserQuota`, `hasQuota`) and
`UserService` (`addUserFeatures`, the update branch of `fulfillUser`).

The database is modelled as an explicit state value (`Db`) holding the
definition table and the ledger rows in insertion order (ascending row
id).  Fallible operations return `Except String Db`; a Prisma
`$transaction` is rendered by the convention that the caller keeps the
pre-call state when the operation returns `.error`, which is made
explicit by the `...Post` observable-state functions.
-/

namespace Affine

/-- `FeatureKind` from `core/features/types/index.ts`:
`Feature = 0`, `Quota = 1`. -/
inductive FeatureKind where
  | Feature
  | Quota
deriving DecidableEq

/-- Structured config payloads of the compiled-in catalog entries
(`core/features/types/index.ts`): empty configs, an early-access
whitelist, or a workspace plan config. -/
inductive FeatureConfigs where
  | empty
  | whitelist (entries : List String)
  | workspace (name : String)
      (blobLimit storageQuota historyPeriod memberLimit : Nat)
deriving DecidableEq

/-- Modelled from the spec: byte-size and duration constants used by the
catalog (`core/quota/constant.ts` is referenced by the catalog but not
part of the sources); sizes are powers of 1024 bytes and `OneDay` is a
day in milliseconds. -/
def OneKB : Nat := 1024

def OneMB : Nat := 1024 * OneKB

def OneGB : Nat := 1024 * OneMB

def OneDay : Nat := 24 * 60 * 60 * 1000

/-- A row of the `feature` definition table: surrogate id, feature name,
kind discriminator (`type`), version, and config payload. -/
structure Feature where
  id : Nat
  feature : String
  type : FeatureKind
  version : Nat
  configs : FeatureConfigs
deriving DecidableEq

/-- A row of the `userFeature` activation ledger: surrogate id, owning
user, reference to a definition row, audit reason, creation stamp,
activation flag, optional expiry. -/
structure UserFeature where
  id : Nat
  userId : String
  featureId : Nat
  reason : String
  createdAt : Nat
  activated : Bool
  expiredAt : Option Nat
deriving DecidableEq

/-- The persistent state: definition table, ledger rows in insertion
order (ids ascend with insertion), and the next ledger surrogate id. -/
structure Db where
  features : List Feature
  userFeatures : List UserFeature
  nextUserFeatureId : Nat
deriving DecidableEq

/-- Fetch a definition row by surrogate id (first row with that id). -/
def featureById (fs : List Feature) (fid : Nat) : Option Feature :=
  fs.find? (fun d => d.id == fid)

/-- The definition table has pairwise-distinct surrogate ids (the
primary-key invariant of the `feature` table). -/
def idsUniq : List Feature → Bool
  | [] => true
  | d :: ds => ds.all (fun d2 => d2.id != d.id) && idsUniq ds

/-- `orderBy version desc` + `findFirst` over a list of definition rows:
the row with the maximal version (earliest row wins ties). -/
def pickLatest : List Feature → Option Feature
  | [] => none
  | d :: ds =>
    match pickLatest ds with
    | none => some d
    | some d2 => if d2.version > d.version then some d2 else some d

/-- `feature.findFirst({where: {feature: name, type: kind}, orderBy:
{version: desc}})` projected to the id, as in `switchUserQuota` and
`addUserFeatures`. -/
def latestFeatureId (db : Db) (name : String) (kind : FeatureKind) :
    Option Nat :=
  (pickLatest (db.features.filter
    (fun d => d.feature == name && d.type == kind))).map (fun d => d.id)

/-- Relation filter `feature: {type: kind}` on a ledger row: the
referenced definition exists and has the given kind. -/
def rowHasKind (fs : List Feature) (kind : FeatureKind)
    (r : UserFeature) : Bool :=
  match featureById fs r.featureId with
  | some d => d.type == kind
  | none => false

/-- Relation filter `feature: {feature: name, type: Quota}` together
with `userId` and `activated: true`, as in `QuotaService.hasQuota`. -/
def isActiveQuotaNamed (fs : List Feature) (u q : String)
    (r : UserFeature) : Bool :=
  r.userId == u && r.activated &&
    (match featureById fs r.featureId with
     | some d => d.feature == q && d.type == FeatureKind.Quota
     | none => false)

/-- `QuotaService.hasQuota`: `count(...) > 0` over the active rows of
`u` whose definition is the `Quota`-kind definition named `q`, rendered
as a list-existence test. -/
def hasQuota (db : Db) (u q : String) : Bool :=
  db.userFeatures.any (isActiveQuotaNamed db.features u q)

/-- The fresh ledger row built by `userFeature.create`: the database
assigns the next surrogate id and the `createdAt` default (modelled by
the same monotone stamp). -/
def mkUserFeature (db : Db) (u : String) (fid : Nat) (reason : String)
    (act : Bool) (exp : Option Nat) : UserFeature :=
  { id := db.nextUserFeatureId, userId := u, featureId := fid,
    reason := reason, createdAt := db.nextUserFeatureId,
    activated := act, expiredAt := exp }

/-- `userFeature.create`: append the fresh ledger row. -/
def insertUserFeature (db : Db) (u : String) (fid : Nat)
    (reason : String) (act : Bool) (exp : Option Nat) : Db :=
  { db with
    userFeatures := db.userFeatures ++ [mkUserFeature db u fid reason act exp],
    nextUserFeatureId := db.nextUserFeatureId + 1 }

/-- The per-row effect of the `updateMany` of `switchUserQuota`: clear
`activated` on a row of `u` whose definition has kind `Quota`. -/
def deactQ (fs : List Feature) (u : String) (r : UserFeature) :
    UserFeature :=
  if r.userId == u && rowHasKind fs FeatureKind.Quota r then
    { r with activated := false }
  else r

/-- The `updateMany` of `switchUserQuota`: set `activated := false` on
every ledger row of `u` whose definition has kind `Quota` (the source's
`where` also carries an ignored `id: undefined` and no `activated`
filter, so inactive quota rows are matched too, a no-op). -/
def deactivateQuotas (db : Db) (u : String) : Db :=
  { db with
    userFeatures := db.userFeatures.map (deactQ db.features u) }

/-- `QuotaService.switchUserQuota`: inside one transaction, short-circuit
when the requested quota is already active, resolve the latest
`Quota`-kind definition id (failing when absent), deactivate every
quota-kind row of the user, and insert one fresh active row. -/
def switchUserQuota (db : Db) (u quota : String) (reason : Option String)
    (expiredAt : Option Nat) : Except String Db :=
  if hasQuota db u quota then .ok db
  else
    match latestFeatureId db quota FeatureKind.Quota with
    | none => .error ("Quota " ++ quota ++ " not found")
    | some fid =>
      .ok (insertUserFeature (deactivateQuotas db u) u fid
        (reason.getD "switch quota") true expiredAt)

/-- The state observable after `switchUserQuota`: the transaction's
result on success, the unchanged pre-state on failure (rollback). -/
def switchUserQuotaPost (db : Db) (u quota : String)
    (reason : Option String) (expiredAt : Option Nat) : Db :=
  match switchUserQuota db u quota reason expiredAt with
  | .ok db2 => db2
  | .error _ => db

/-- Modelled from the spec: the values of the `QuotaType` enumeration
(`core/quota/types.ts` is referenced but not part of the sources); the
spec's scenarios name the quota plans `personal_workspace` and
`team_workspace`. -/
def quotaTypeValues : List String :=
  ["personal_workspace", "team_workspace"]

/-- The `where` filter of `getUserQuota`: an activated row of `u` whose
definition name is among the `QuotaType` values (note: the source
filters by name membership only, not by kind). -/
def isActiveQuotaTypeRow (fs : List Feature) (u : String)
    (r : UserFeature) : Bool :=
  r.userId == u && r.activated &&
    (match featureById fs r.featureId with
     | some d => quotaTypeValues.contains d.feature
     | none => false)

/-- Modelled from the spec: `QuotaConfig.get` (`core/quota/quota.ts` is
referenced but not part of the sources) is the spec's
`resolve(definitionId)`: fetch the definition by id and fail with
`DefinitionNotFound` when it is absent or its kind is not the expected
`Quota` kind. -/
def quotaConfigGet (fs : List Feature) (fid : Nat) :
    Except String Feature :=
  match featureById fs fid with
  | none => .error "DefinitionNotFound"
  | some d =>
    if d.type == FeatureKind.Quota then .ok d
    else .error "DefinitionNotFound"

/-- `QuotaService.getUserQuota`: `findFirst` over the activated rows
whose definition name is a `QuotaType` value, failing with the
`has no quota` error when none exists, then resolving the referenced
definition through `QuotaConfig.get`. -/
def getUserQuota (db : Db) (u : String) :
    Except String (UserFeature × Feature) :=
  match db.userFeatures.find? (isActiveQuotaTypeRow db.features u) with
  | none => .error ("User " ++ u ++ " has no quota")
  | some r =>
    match quotaConfigGet db.features r.featureId with
    | .ok d => .ok (r, d)
    | .error e => .error e

/-- `QuotaService.getUserQuotas`: `findMany` over the rows of `u` whose
definition has kind `Quota`, in ascending-id (insertion) order, each
resolved through `QuotaConfig.get` inside a `try`; rows whose resolution
throws become `null` and are filtered out. -/
def getUserQuotas (db : Db) (u : String) :
    List (UserFeature × Feature) :=
  (db.userFeatures.filter (fun r =>
      r.userId == u && rowHasKind db.features FeatureKind.Quota r)).filterMap
    (fun r =>
      match quotaConfigGet db.features r.featureId with
      | .ok d => some (r, d)
      | .error _ => none)

/-- Relation filter `feature: {feature: f, type: Feature}` together
with `userId` and `activated: true`, as in the `latestFlag` lookup of
`addUserFeatures`. -/
def isActiveFeatureNamed (fs : List Feature) (u f : String)
    (r : UserFeature) : Bool :=
  r.userId == u && r.activated &&
    (match featureById fs r.featureId with
     | some d => d.feature == f && d.type == FeatureKind.Feature
     | none => false)

/-- The `latestFlag` lookup of `addUserFeatures`: an activated row of
`u` whose definition is the `Feature`-kind definition named `f` (the
source orders by `createdAt desc` and only tests for existence). -/
def hasActiveFeature (db : Db) (u f : String) : Bool :=
  db.userFeatures.any (isActiveFeatureNamed db.features u f)

/-- One iteration of the `addUserFeatures` loop: skip a name that is
already actively granted, otherwise resolve the latest `Feature`-kind
definition (failing when absent) and insert a fresh active row with
reason `sign up`. -/
def addFeatureStep (u : String) (db : Db) (f : String) :
    Except String Db :=
  if hasActiveFeature db u f then .ok db
  else
    match latestFeatureId db f FeatureKind.Feature with
    | none => .error ("Feature " ++ f ++ " not found")
    | some fid => .ok (insertUserFeature db u fid "sign up" true none)

/-- The sequential `for` loop of `addUserFeatures` threaded through the
transaction state; an error aborts the remainder. -/
def addFeaturesLoop (u : String) : Db → List String → Except String Db
  | db, [] => .ok db
  | db, f :: fs =>
    match addFeatureStep u db f with
    | .ok db2 => addFeaturesLoop u db2 fs
    | .error e => .error e

/-- `UserService.addUserFeatures`: the per-name grant loop, run inside
one transaction. -/
def addUserFeatures (db : Db) (u : String) (fs : List String) :
    Except String Db :=
  addFeaturesLoop u db fs

/-- The state observable after `addUserFeatures`: rollback on error. -/
def addUserFeaturesPost (db : Db) (u : String) (fs : List String) : Db :=
  match addUserFeatures db u fs with
  | .ok db2 => db2
  | .error _ => db

/-- `UserGroup` from `core/user/types.ts` as used by `fulfillUser`
(with a fourth case for the `default:` branch of the `switch`). -/
inductive UserGroup where
  | Admin
  | TeamLead
  | User
  | Unknown
deriving DecidableEq

/-- The feature names pushed by the `switch (group)` of `fulfillUser`
(`FeatureType` string values from `core/features/types/common.ts`). -/
def groupFeatures : UserGroup → List String
  | .Admin => ["administrator", "unlimited_workspace"]
  | .TeamLead => ["team_workspace"]
  | .User => ["personal_workspace"]
  | .Unknown => []

/-- The per-row effect of the `updateMany` of `fulfillUser`: clear
`activated` on any activated row of `u`, regardless of kind. -/
def deactAll (u : String) (r : UserFeature) : UserFeature :=
  if r.userId == u && r.activated then { r with activated := false }
  else r

/-- The `updateMany` of `fulfillUser`: set `activated := false` on every
activated ledger row of the user, regardless of kind. -/
def deactivateAllRows (db : Db) (u : String) : Db :=
  { db with userFeatures := db.userFeatures.map (deactAll u) }

/-- The user-table columns of `fulfillUser`'s existing user that guard
the key deletions. -/
structure UserRow where
  registered : Bool
  emailVerified : Bool
deriving DecidableEq

/-- The keys of the update payload after `fulfillUser`'s conditional
`delete data.registered` / `delete data.emailVerifiedAt`. -/
def remainingDataKeys (user : UserRow) (dataKeys : List String) :
    List String :=
  let ks := if user.registered then dataKeys.erase "registered"
            else dataKeys
  if user.emailVerified then ks.erase "emailVerifiedAt" else ks

/-- The existing-user branch of `UserService.fulfillUser`, restricted to
its ledger effects: when the update payload still has keys after the
conditional deletions, deactivate every activated row of the user and
re-grant the group's features; otherwise leave the ledger unchanged
(the user-table `update` itself does not touch the ledger). -/
def fulfillUserUpdate (db : Db) (user : UserRow) (userId : String)
    (group : UserGroup) (dataKeys : List String) : Except String Db :=
  if (remainingDataKeys user dataKeys).isEmpty then .ok db
  else
    addUserFeatures (deactivateAllRows db userId) userId
      (groupFeatures group)

/-- The compiled-in catalog `Features` of
`core/features/types/index.ts`, with surrogate ids assigned in catalog
order.  Modelled from the spec for the ids only: `ensureSeeded` inserts
each catalog `(name, version)` into the definition table
(`upsertFeature` is referenced by the migration but not part of the
sources), so seeding yields one row per entry.  Every entry of the
catalog — including `personal_workspace` and `team_workspace` — carries
`type: FeatureKind.Feature`. -/
def FeaturesCatalog : List Feature :=
  [ { id := 1, feature := "copilot", type := FeatureKind.Feature,
      version := 1, configs := .empty },
    { id := 2, feature := "early_access", type := FeatureKind.Feature,
      version := 1, configs := .whitelist ["@toeverything.info"] },
    { id := 3, feature := "early_access", type := FeatureKind.Feature,
      version := 2, configs := .whitelist [] },
    { id := 4, feature := "unlimited_workspace",
      type := FeatureKind.Feature, version := 1,
      configs := .workspace "Unlimited" OneGB (500 * OneGB)
        (365 * OneDay) 10000 },
    { id := 5, feature := "unlimited_copilot",
      type := FeatureKind.Feature, version := 1, configs := .empty },
    { id := 6, feature := "ai_early_access", type := FeatureKind.Feature,
      version := 1, configs := .empty },
    { id := 7, feature := "administrator", type := FeatureKind.Feature,
      version := 1, configs := .empty },
    { id := 8, feature := "personal_workspace",
      type := FeatureKind.Feature, version := 1,
      configs := .workspace "Personal" (10 * OneMB) (5 * OneGB)
        (7 * OneDay) 1 },
    { id := 9, feature := "team_workspace", type := FeatureKind.Feature,
      version := 1,
      configs := .workspace "Team" (30 * OneMB) (100 * OneGB)
        (28 * OneDay) 100 } ]

end Affine

namespace Affine

/-! ## Derived quantities -/

/-- The number of activated `Quota`-kind ledger rows of a user — the
quantity the mutual-exclusion invariant bounds. -/
def activeQuotaCount (db : Db) (u : String) : Nat :=
  (db.userFeatures.filter (fun r =>
    r.userId == u && r.activated &&
      rowHasKind db.features FeatureKind.Quota r)).length

/-- A ledger row of `u` (activated or not) referencing the
`Feature`-kind definition named `f`. -/
def isFeatureRowNamed (fs : List Feature) (u f : String)
    (r : UserFeature) : Bool :=
  r.userId == u &&
    (match featureById fs r.featureId with
     | some d => d.feature == f && d.type == FeatureKind.Feature
     | none => false)

/-- The number of ledger rows of `u` referencing a `Feature`-kind
definition named `f` (activated or not): the per-name history length. -/
def featureRowCount (db : Db) (u f : String) : Nat :=
  (db.userFeatures.filter (isFeatureRowNamed db.features u f)).length

/-- One `switchUserQuota` request. -/
structure SwitchOp where
  userId : String
  quota : String
  reason : Option String
  expiredAt : Option Nat

/-- The observable state after a sequence of `switchUserQuota` calls,
each transaction either committing or rolling back. -/
def runSwitches (db : Db) (ops : List SwitchOp) : Db :=
  ops.foldl (fun s op =>
    switchUserQuotaPost s op.userId op.quota op.reason op.expiredAt) db

/-- Modelled from the spec: `allQuotaHistory(accountId)` returns the
account's `(record, definition)` pairs in insertion order, silently
omitting every record whose definition fails to resolve instead of
failing the whole query. -/
def specAllQuotaHistory (db : Db) (u : String) :
    List (UserFeature × Feature) :=
  db.userFeatures.filterMap (fun r =>
    if r.userId == u then
      match quotaConfigGet db.features r.featureId with
      | .ok d => some (r, d)
      | .error _ => none
    else none)

/-! ## Definition-table lookup lemmas -/

theorem featureById_some {fs : List Feature} {fid : Nat} {d : Feature}
    (h : featureById fs fid = some d) : d ∈ fs ∧ d.id = fid := by
  unfold featureById at h
  refine ⟨List.mem_of_find?_eq_some h, ?_⟩
  have hp := List.find?_some h
  simpa using hp

theorem idsUniq_featureById {fs : List Feature} (h : idsUniq fs = true)
    {d : Feature} (hd : d ∈ fs) : featureById fs d.id = some d := by
  induction fs with
  | nil => cases hd
  | cons a as ih =>
    simp only [idsUniq, Bool.and_eq_true, List.all_eq_true, bne_iff_ne,
      ne_eq] at h
    obtain ⟨h1, h2⟩ := h
    rcases List.mem_cons.mp hd with rfl | hd2
    · simp [featureById, List.find?_cons]
    · have hne : a.id ≠ d.id := fun he => h1 d hd2 he.symm
      have : (a.id == d.id) = false := by
        simp [hne]
      simp only [featureById, List.find?_cons, this]
      exact ih h2 hd2

theorem pickLatest_eq_none {fs : List Feature}
    (h : pickLatest fs = none) : fs = [] := by
  cases fs with
  | nil => rfl
  | cons a as =>
    simp only [pickLatest] at h
    cases hp : pickLatest as with
    | none => rw [hp] at h; cases h
    | some d2 =>
      rw [hp] at h
      by_cases hv : d2.version > a.version <;> simp [hv] at h

theorem pickLatest_mem : ∀ {fs : List Feature} {d : Feature},
    pickLatest fs = some d → d ∈ fs := by
  intro fs
  induction fs with
  | nil => intro d h; cases h
  | cons a as ih =>
    intro d h
    simp only [pickLatest] at h
    cases hp : pickLatest as with
    | none =>
      rw [hp] at h
      cases h
      exact List.mem_cons_self a as
    | some d2 =>
      rw [hp] at h
      by_cases hv : d2.version > a.version
      · simp only [hv, if_true] at h
        cases h
        exact List.mem_cons_of_mem a (ih hp)
      · simp only [hv, if_false] at h
        cases h
        exact List.mem_cons_self a as

theorem pickLatest_max : ∀ {fs : List Feature} {d : Feature},
    pickLatest fs = some d → ∀ d2 ∈ fs, d2.version ≤ d.version := by
  intro fs
  induction fs with
  | nil => intro d h; cases h
  | cons a as ih =>
    intro d h d2 hd2
    simp only [pickLatest] at h
    cases hp : pickLatest as with
    | none =>
      rw [hp] at h
      cases h
      have := pickLatest_eq_none hp
      subst this
      rcases List.mem_cons.mp hd2 with rfl | hd3
      · exact Nat.le_refl _
      · cases hd3
    | some dm =>
      rw [hp] at h
      by_cases hv : dm.version > a.version
      · simp only [hv, if_true] at h
        cases h
        rcases List.mem_cons.mp hd2 with rfl | hd3
        · exact Nat.le_of_lt hv
        · exact ih hp d2 hd3
      · simp only [hv, if_false] at h
        cases h
        rcases List.mem_cons.mp hd2 with rfl | hd3
        · exact Nat.le_refl _
        · exact Nat.le_trans (ih hp d2 hd3) (Nat.le_of_not_lt hv)

end Affine

namespace Affine

theorem latestFeatureId_spec {db : Db} {q : String} {k : FeatureKind}
    {fid : Nat} (h : latestFeatureId db q k = some fid) :
    ∃ d ∈ db.features, d.id = fid ∧ d.feature = q ∧ d.type = k ∧
      ∀ d2 ∈ db.features, d2.feature = q → d2.type = k →
        d2.version ≤ d.version := by
  unfold latestFeatureId at h
  cases hp : pickLatest (db.features.filter
      (fun d => d.feature == q && d.type == k)) with
  | none => rw [hp] at h; cases h
  | some d =>
    rw [hp] at h
    have hid : d.id = fid := by simpa using h
    have hmem := pickLatest_mem hp
    have hmf := List.mem_filter.mp hmem
    obtain ⟨hdf, hdp⟩ := hmf
    simp only [Bool.and_eq_true, beq_iff_eq] at hdp
    refine ⟨d, hdf, hid, hdp.1, hdp.2, ?_⟩
    intro d2 hd2 hq2 hk2
    exact pickLatest_max hp d2
      (List.mem_filter.mpr ⟨hd2, by simp [hq2, hk2]⟩)

theorem latestFeatureId_eq_none {db : Db} {q : String} {k : FeatureKind}
    (h : ∀ d ∈ db.features, ¬(d.feature = q ∧ d.type = k)) :
    latestFeatureId db q k = none := by
  unfold latestFeatureId
  have hf : db.features.filter (fun d => d.feature == q && d.type == k)
      = [] := by
    rw [List.filter_eq_nil_iff]
    intro d hd
    have := h d hd
    simp only [Bool.and_eq_true, beq_iff_eq]
    tauto
  rw [hf]
  rfl

/-! ## Structural lemmas -/

@[simp] theorem insertUserFeature_features (db : Db) (u : String)
    (fid : Nat) (rs : String) (act : Bool) (exp : Option Nat) :
    (insertUserFeature db u fid rs act exp).features = db.features := rfl

@[simp] theorem deactivateQuotas_features (db : Db) (u : String) :
    (deactivateQuotas db u).features = db.features := rfl

@[simp] theorem deactivateAllRows_features (db : Db) (u : String) :
    (deactivateAllRows db u).features = db.features := rfl

@[simp] theorem deactQ_userId (fs : List Feature) (u : String)
    (r : UserFeature) : (deactQ fs u r).userId = r.userId := by
  unfold deactQ; split <;> rfl

@[simp] theorem deactQ_featureId (fs : List Feature) (u : String)
    (r : UserFeature) : (deactQ fs u r).featureId = r.featureId := by
  unfold deactQ; split <;> rfl

@[simp] theorem rowHasKind_deactQ (fs fs2 : List Feature)
    (k : FeatureKind) (u : String) (r : UserFeature) :
    rowHasKind fs k (deactQ fs2 u r) = rowHasKind fs k r := by
  unfold deactQ; split <;> rfl

@[simp] theorem deactAll_userId (u : String) (r : UserFeature) :
    (deactAll u r).userId = r.userId := by
  unfold deactAll; split <;> rfl

@[simp] theorem deactAll_featureId (u : String) (r : UserFeature) :
    (deactAll u r).featureId = r.featureId := by
  unfold deactAll; split <;> rfl

theorem deactQ_of_ne (fs : List Feature) {u : String} {r : UserFeature}
    (h : r.userId ≠ u) : deactQ fs u r = r := by
  unfold deactQ
  have : (r.userId == u) = false := by simp [h]
  simp [this]

theorem deactAll_activated (u : String) (r : UserFeature)
    (h : r.userId = u) : (deactAll u r).activated = false := by
  unfold deactAll
  by_cases ha : r.activated
  · simp [h, ha]
  · simp only [Bool.not_eq_true] at ha
    simp [h, ha]

theorem deactivateAllRows_inactive (db : Db) (u : String) :
    ∀ r ∈ (deactivateAllRows db u).userFeatures,
      r.userId = u → r.activated = false := by
  intro r hr hu
  simp only [deactivateAllRows, List.mem_map] at hr
  obtain ⟨r0, _, rfl⟩ := hr
  have hu0 : r0.userId = u := by simpa using hu
  exact deactAll_activated u r0 hu0

end Affine


namespace Affine

/-! ## Filter bookkeeping -/

@[simp] theorem mkUserFeature_userId (db : Db) (u : String) (fid : Nat)
    (rs : String) (act : Bool) (exp : Option Nat) :
    (mkUserFeature db u fid rs act exp).userId = u := rfl

@[simp] theorem mkUserFeature_featureId (db : Db) (u : String)
    (fid : Nat) (rs : String) (act : Bool) (exp : Option Nat) :
    (mkUserFeature db u fid rs act exp).featureId = fid := rfl

@[simp] theorem mkUserFeature_activated (db : Db) (u : String)
    (fid : Nat) (rs : String) (act : Bool) (exp : Option Nat) :
    (mkUserFeature db u fid rs act exp).activated = act := rfl

@[simp] theorem mkUserFeature_reason (db : Db) (u : String)
    (fid : Nat) (rs : String) (act : Bool) (exp : Option Nat) :
    (mkUserFeature db u fid rs act exp).reason = rs := rfl

@[simp] theorem insertUserFeature_userFeatures (db : Db) (u : String)
    (fid : Nat) (rs : String) (act : Bool) (exp : Option Nat) :
    (insertUserFeature db u fid rs act exp).userFeatures
      = db.userFeatures ++ [mkUserFeature db u fid rs act exp] := rfl

@[simp] theorem deactivateQuotas_userFeatures (db : Db) (u : String) :
    (deactivateQuotas db u).userFeatures
      = db.userFeatures.map (deactQ db.features u) := rfl

@[simp] theorem deactivateAllRows_userFeatures (db : Db) (u : String) :
    (deactivateAllRows db u).userFeatures
      = db.userFeatures.map (deactAll u) := rfl

theorem filter_map_congr {α : Type} (g : α → α) (p : α → Bool)
    (l : List α)
    (h : ∀ a ∈ l, (p (g a) = false ∧ p a = false) ∨ g a = a) :
    (l.map g).filter p = l.filter p := by
  induction l with
  | nil => rfl
  | cons a as ih =>
    have htail := ih (fun x hx => h x (List.mem_cons_of_mem a hx))
    simp only [List.map_cons]
    rcases h a (List.mem_cons_self a as) with ⟨h1, h2⟩ | he
    · rw [List.filter_cons, List.filter_cons, h1, h2]
      simpa using htail
    · rw [he, List.filter_cons, List.filter_cons]
      cases hp : p a <;> simp [htail]

theorem isActiveQuota_deactQ_self (fs : List Feature) (u : String)
    (r : UserFeature) :
    ((deactQ fs u r).userId == u && (deactQ fs u r).activated &&
      rowHasKind fs FeatureKind.Quota (deactQ fs u r)) = false := by
  by_cases hc : (r.userId == u && rowHasKind fs FeatureKind.Quota r)
      = true
  · unfold deactQ
    simp [hc]
  · have hcf := hc
    simp only [Bool.and_eq_true, not_and] at hc
    have hr : deactQ fs u r = r := by unfold deactQ; simp [hcf]
    rw [hr]
    by_cases hu : (r.userId == u) = true
    · have hk := hc hu
      simp only [Bool.not_eq_true] at hk
      simp [hu, hk]
    · simp only [Bool.not_eq_true] at hu
      simp [hu]

theorem deactQ_activated_imp (fs : List Feature) (u : String)
    (r : UserFeature) (hu : r.userId = u)
    (hact : (deactQ fs u r).activated = true) :
    rowHasKind fs FeatureKind.Quota r = false := by
  by_cases hk : rowHasKind fs FeatureKind.Quota r = true
  · exfalso
    have hc : (r.userId == u && rowHasKind fs FeatureKind.Quota r)
        = true := by simp [hu, hk]
    unfold deactQ at hact
    simp [hc] at hact
  · simpa using hk

theorem activeQuotaCount_deact_self (db : Db) (u : String) :
    activeQuotaCount (deactivateQuotas db u) u = 0 := by
  unfold activeQuotaCount
  simp only [deactivateQuotas_userFeatures, deactivateQuotas_features]
  rw [List.length_eq_zero, List.filter_eq_nil_iff]
  intro r hr
  simp only [List.mem_map] at hr
  obtain ⟨r0, _, rfl⟩ := hr
  simp only [deactQ_userId, rowHasKind_deactQ, Bool.and_eq_true,
    beq_iff_eq, not_and, Bool.not_eq_true]
  intro hu
  exact deactQ_activated_imp db.features u r0 hu.1 hu.2

theorem activeQuotaCount_deact_other (db : Db) {u v : String}
    (hne : v ≠ u) :
    activeQuotaCount (deactivateQuotas db u) v = activeQuotaCount db v
    := by
  unfold activeQuotaCount
  simp only [deactivateQuotas_userFeatures, deactivateQuotas_features]
  congr 1
  refine filter_map_congr _ _ _ ?_
  intro r _
  by_cases hu : r.userId = u
  · have hnv : ¬(u = v) := Ne.symm hne
    left
    constructor
    · have h1 : ((deactQ db.features u r).userId == v) = false := by
        simp [hu, hnv]
      simp only [h1, Bool.false_and]
    · have h2 : (r.userId == v) = false := by simp [hu, hnv]
      simp only [h2, Bool.false_and]
  · right
    exact deactQ_of_ne db.features hu

theorem activeQuotaCount_insert_other (db : Db) {u v : String}
    (fid : Nat) (rs : String) (act : Bool) (e : Option Nat)
    (hne : v ≠ u) :
    activeQuotaCount (insertUserFeature db u fid rs act e) v
      = activeQuotaCount db v := by
  unfold activeQuotaCount
  simp only [insertUserFeature_userFeatures, insertUserFeature_features,
    List.filter_append, List.length_append]
  have hnew : ((u == v) : Bool) = false := by
    simp [Ne.symm hne]
  rw [List.filter_cons]
  simp [hnew]

theorem activeQuotaCount_insert_le (db : Db) (u v : String)
    (fid : Nat) (rs : String) (act : Bool) (e : Option Nat) :
    activeQuotaCount (insertUserFeature db u fid rs act e) v
      ≤ activeQuotaCount db v + 1 := by
  unfold activeQuotaCount
  simp only [insertUserFeature_userFeatures, insertUserFeature_features,
    List.filter_append, List.length_append]
  have hle : ∀ (x : UserFeature) (p : UserFeature → Bool),
      (List.filter p [x]).length ≤ 1 := by
    intro x p
    rw [List.filter_cons]
    split <;> simp
  exact Nat.add_le_add_left (hle _ _) _

/-! ## switchUserQuota case analysis -/

theorem switchPost_cases (db : Db) (u q : String) (r : Option String)
    (e : Option Nat) :
    switchUserQuotaPost db u q r e = db ∨
    ∃ fid, hasQuota db u q = false ∧
      latestFeatureId db q FeatureKind.Quota = some fid ∧
      switchUserQuotaPost db u q r e =
        insertUserFeature (deactivateQuotas db u) u fid
          (r.getD "switch quota") true e := by
  unfold switchUserQuotaPost switchUserQuota
  by_cases hq : hasQuota db u q = true
  · left; simp [hq]
  · simp only [Bool.not_eq_true] at hq
    cases hl : latestFeatureId db q FeatureKind.Quota with
    | none => left; simp [hq]
    | some fid =>
      right
      exact ⟨fid, hq, rfl, by simp [hq]⟩

theorem switchPost_count_le (db : Db) (u q : String) (r : Option String)
    (e : Option Nat) (v : String) (h : activeQuotaCount db v ≤ 1) :
    activeQuotaCount (switchUserQuotaPost db u q r e) v ≤ 1 := by
  rcases switchPost_cases db u q r e with heq | ⟨fid, _, _, heq⟩
  · rw [heq]; exact h
  · rw [heq]
    by_cases hv : v = u
    · subst hv
      have h1 := activeQuotaCount_insert_le (deactivateQuotas db v) v v
        fid (r.getD "switch quota") true e
      rw [activeQuotaCount_deact_self] at h1
      exact h1
    · rw [activeQuotaCount_insert_other _ _ _ _ _ hv,
        activeQuotaCount_deact_other _ hv]
      exact h

end Affine

namespace Affine

/-! ## hasQuota lemmas -/

theorem switchUserQuota_of_hasQuota {db : Db} {u q : String}
    (h : hasQuota db u q = true) (r : Option String) (e : Option Nat) :
    switchUserQuota db u q r e = .ok db := by
  unfold switchUserQuota
  simp [h]

theorem hasQuota_insert_true {db : Db} {u q : String} {fid : Nat}
    {d : Feature} (hlook : featureById db.features fid = some d)
    (hf : d.feature = q) (ht : d.type = FeatureKind.Quota)
    (rs : String) (e : Option Nat) :
    hasQuota (insertUserFeature db u fid rs true e) u q = true := by
  unfold hasQuota
  simp only [insertUserFeature_userFeatures, insertUserFeature_features,
    List.any_append, Bool.or_eq_true]
  right
  simp only [List.any_cons, List.any_nil, Bool.or_false]
  unfold isActiveQuotaNamed
  simp [mkUserFeature_userId, mkUserFeature_featureId,
    mkUserFeature_activated, hlook, hf, ht]

theorem hasQuota_switch_result {db : Db} {u q : String} {fid : Nat}
    (huniq : idsUniq db.features = true)
    (hl : latestFeatureId db q FeatureKind.Quota = some fid)
    (rs : String) (e : Option Nat) :
    hasQuota (insertUserFeature (deactivateQuotas db u) u fid rs true e)
      u q = true := by
  obtain ⟨d, hdm, hdid, hdf, hdt, _⟩ := latestFeatureId_spec hl
  have hlook : featureById (deactivateQuotas db u).features fid = some d
      := by
    rw [deactivateQuotas_features]
    have := idsUniq_featureById huniq hdm
    rwa [hdid] at this
  exact hasQuota_insert_true hlook hdf hdt rs e

end Affine

namespace Affine

/-! ## Frame lemmas for switchUserQuota -/

theorem rowHasKind_Quota_not_Feature {fs : List Feature}
    {r : UserFeature} (h : rowHasKind fs FeatureKind.Quota r = true) :
    rowHasKind fs FeatureKind.Feature r = false := by
  unfold rowHasKind at h ⊢
  cases hf : featureById fs r.featureId with
  | none => rfl
  | some d =>
    rw [hf] at h
    have : d.type = FeatureKind.Quota := by simpa using h
    simp [this]

theorem filter_featureKind_map_deactQ (db : Db) (u : String) :
    (db.userFeatures.map (deactQ db.features u)).filter
        (rowHasKind db.features FeatureKind.Feature)
      = db.userFeatures.filter
        (rowHasKind db.features FeatureKind.Feature) := by
  refine filter_map_congr _ _ _ ?_
  intro r _
  by_cases hc : (r.userId == u && rowHasKind db.features
      FeatureKind.Quota r) = true
  · left
    have hquota : rowHasKind db.features FeatureKind.Quota r = true :=
      (Bool.and_eq_true _ _ |>.mp hc).2
    have hfeat := rowHasKind_Quota_not_Feature hquota
    constructor
    · rw [rowHasKind_deactQ]
      exact hfeat
    · exact hfeat
  · right
    unfold deactQ
    simp [hc]

theorem filter_otherUser_map_deactQ (db : Db) (u : String) :
    (db.userFeatures.map (deactQ db.features u)).filter
        (fun r2 => !(r2.userId == u))
      = db.userFeatures.filter (fun r2 => !(r2.userId == u)) := by
  refine filter_map_congr _ _ _ ?_
  intro r _
  by_cases hu : r.userId = u
  · left
    constructor
    · simp [hu]
    · simp [hu]
  · right
    exact deactQ_of_ne db.features hu

/-! ## Concrete databases for witnesses -/

/-- The empty database. -/
def emptyDb : Db :=
  { features := [], userFeatures := [], nextUserFeatureId := 1 }

/-- A database whose definition table holds two `Quota`-kind plans and
whose ledger has one activated personal-plan row. -/
def quotaDefsDb : Db :=
  { features := [ { id := 1, feature := "personal_workspace",
                    type := FeatureKind.Quota, version := 1,
                    configs := .empty },
                  { id := 2, feature := "team_workspace",
                    type := FeatureKind.Quota, version := 1,
                    configs := .empty } ],
    userFeatures := [ { id := 1, userId := "u1", featureId := 1,
                        reason := "sign up", createdAt := 1,
                        activated := true, expiredAt := none } ],
    nextUserFeatureId := 2 }

/-! ## Claim C1 -/

/-- C1: starting from any ledger in which every account has at most one
activated `Quota`-kind record, any sequence of `switchUserQuota`
operations preserves that bound; moreover each single call either
leaves the observable ledger unchanged or commits the full
deactivate-all-then-insert-one transaction. -/
theorem C1_quota_exclusivity (db0 : Db) (ops : List SwitchOp)
    (h : ∀ v, activeQuotaCount db0 v ≤ 1) :
    (∀ v, activeQuotaCount (runSwitches db0 ops) v ≤ 1) ∧
    (∀ (db : Db) (u q : String) (r : Option String) (e : Option Nat),
      switchUserQuotaPost db u q r e = db ∨
      ∃ fid, hasQuota db u q = false ∧
        latestFeatureId db q FeatureKind.Quota = some fid ∧
        switchUserQuotaPost db u q r e =
          insertUserFeature (deactivateQuotas db u) u fid
            (r.getD "switch quota") true e) := by
  constructor
  · induction ops generalizing db0 with
    | nil => exact h
    | cons op rest ih =>
      have hstep : ∀ v, activeQuotaCount
          (switchUserQuotaPost db0 op.userId op.quota op.reason
            op.expiredAt) v ≤ 1 :=
        fun v => switchPost_count_le db0 op.userId op.quota op.reason
          op.expiredAt v (h v)
      exact ih _ hstep
  · intro db u q r e
    exact switchPost_cases db u q r e

theorem C1_quota_exclusivity_witness :
    (∀ v, activeQuotaCount quotaDefsDb v ≤ 1) ∧
    ((∀ v, activeQuotaCount (runSwitches quotaDefsDb
        [{ userId := "u1", quota := "team_workspace", reason := none,
           expiredAt := none }]) v ≤ 1) ∧
     (∀ (db : Db) (u q : String) (r : Option String) (e : Option Nat),
       switchUserQuotaPost db u q r e = db ∨
       ∃ fid, hasQuota db u q = false ∧
         latestFeatureId db q FeatureKind.Quota = some fid ∧
         switchUserQuotaPost db u q r e =
           insertUserFeature (deactivateQuotas db u) u fid
             (r.getD "switch quota") true e)) := by
  have h : ∀ v, activeQuotaCount quotaDefsDb v ≤ 1 := by
    intro v
    unfold activeQuotaCount quotaDefsDb
    rw [List.filter_cons]
    split
    · simp
    · simp
  exact ⟨h, C1_quota_exclusivity quotaDefsDb
    [{ userId := "u1", quota := "team_workspace", reason := none,
       expiredAt := none }] h⟩

/-! ## Claim C8 -/

/-- C8: ledger mutations are atomic — a failed `switchUserQuota` or
`addUserFeatures` leaves the observable state exactly as before the
call, and a committed `switchUserQuota` is either a no-op or the full
deactivate-old-plus-insert-new result, so a state with quota records
deactivated but no new record inserted is never observable. -/
theorem C8_atomicity :
    (∀ (db : Db) (u q : String) (r : Option String) (e : Option Nat)
        (err : String), switchUserQuota db u q r e = .error err →
        switchUserQuotaPost db u q r e = db) ∧
    (∀ (db : Db) (u : String) (fs : List String) (err : String),
        addUserFeatures db u fs = .error err →
        addUserFeaturesPost db u fs = db) ∧
    (∀ (db : Db) (u q : String) (r : Option String) (e : Option Nat),
        switchUserQuotaPost db u q r e = db ∨
        ∃ fid, hasQuota db u q = false ∧
          latestFeatureId db q FeatureKind.Quota = some fid ∧
          switchUserQuotaPost db u q r e =
            insertUserFeature (deactivateQuotas db u) u fid
              (r.getD "switch quota") true e) := by
  refine ⟨?_, ?_, ?_⟩
  · intro db u q r e err herr
    unfold switchUserQuotaPost
    rw [herr]
  · intro db u fs err herr
    unfold addUserFeaturesPost
    rw [herr]
  · intro db u q r e
    exact switchPost_cases db u q r e

theorem C8_atomicity_witness :
    switchUserQuota emptyDb "u" "q" none none
      = .error "Quota q not found" ∧
    addUserFeatures emptyDb "u" ["f"] = .error "Feature f not found" ∧
    switchUserQuotaPost emptyDb "u" "q" none none = emptyDb ∧
    addUserFeaturesPost emptyDb "u" ["f"] = emptyDb :=
  ⟨rfl, rfl,
   C8_atomicity.1 emptyDb "u" "q" none none "Quota q not found" rfl,
   C8_atomicity.2.1 emptyDb "u" ["f"] "Feature f not found" rfl⟩

/-! ## Claim C10 -/

/-- C10: `switchUserQuota` never changes `Feature`-kind activation
records — the list of rows whose definition has kind `Feature` is
unchanged by any (successful or failed) call — and rows of every other
account are untouched; the definition table is also unchanged. -/
theorem C10_switch_feature_frame (db : Db) (u q : String)
    (r : Option String) (e : Option Nat)
    (huniq : idsUniq db.features = true) :
    ((switchUserQuotaPost db u q r e).userFeatures.filter
        (rowHasKind db.features FeatureKind.Feature)
      = db.userFeatures.filter
        (rowHasKind db.features FeatureKind.Feature)) ∧
    ((switchUserQuotaPost db u q r e).userFeatures.filter
        (fun r2 => !(r2.userId == u))
      = db.userFeatures.filter (fun r2 => !(r2.userId == u))) ∧
    (switchUserQuotaPost db u q r e).features = db.features := by
  rcases switchPost_cases db u q r e with heq | ⟨fid, _, hl, heq⟩
  · rw [heq]
    exact ⟨rfl, rfl, rfl⟩
  · rw [heq]
    refine ⟨?_, ?_, rfl⟩
    · simp only [insertUserFeature_userFeatures,
        deactivateQuotas_userFeatures, List.filter_append]
      have hnew : rowHasKind db.features FeatureKind.Feature
          (mkUserFeature (deactivateQuotas db u) u fid
            (r.getD "switch quota") true e) = false := by
        obtain ⟨d, hdm, hdid, _, hdt, _⟩ := latestFeatureId_spec hl
        have hlook := idsUniq_featureById huniq hdm
        rw [hdid] at hlook
        unfold rowHasKind
        rw [mkUserFeature_featureId, hlook]
        simp [hdt]
      rw [List.filter_cons]
      simp [hnew, filter_featureKind_map_deactQ]
    · simp only [insertUserFeature_userFeatures,
        deactivateQuotas_userFeatures, List.filter_append]
      have hnew : (!((mkUserFeature (deactivateQuotas db u) u fid
          (r.getD "switch quota") true e).userId == u)) = false := by
        simp
      rw [List.filter_cons]
      simp only [hnew]
      simp [filter_otherUser_map_deactQ]

theorem C10_switch_feature_frame_witness :
    idsUniq quotaDefsDb.features = true ∧
    (((switchUserQuotaPost quotaDefsDb "u1" "team_workspace" none
          none).userFeatures.filter
        (rowHasKind quotaDefsDb.features FeatureKind.Feature)
      = quotaDefsDb.userFeatures.filter
        (rowHasKind quotaDefsDb.features FeatureKind.Feature)) ∧
     ((switchUserQuotaPost quotaDefsDb "u1" "team_workspace" none
          none).userFeatures.filter
        (fun r2 => !(r2.userId == "u1"))
      = quotaDefsDb.userFeatures.filter
        (fun r2 => !(r2.userId == "u1"))) ∧
     (switchUserQuotaPost quotaDefsDb "u1" "team_workspace" none
        none).features = quotaDefsDb.features) :=
  ⟨rfl, C10_switch_feature_frame quotaDefsDb "u1" "team_workspace"
    none none rfl⟩

end Affine

namespace Affine

/-! ## Claim C3 -/

/-- C3: `switchUserQuota` is idempotent — when the requested quota is
not yet active and its `Quota`-kind definition is seeded, the first
call inserts exactly one new activation record, the second call
short-circuits returning the unchanged state, and `hasQuota` is true
after either call. -/
theorem C3_switch_idempotent (db : Db) (u q : String)
    (r : Option String) (e : Option Nat) (fid : Nat)
    (huniq : idsUniq db.features = true)
    (hq : hasQuota db u q = false)
    (hl : latestFeatureId db q FeatureKind.Quota = some fid) :
    ∃ db1, switchUserQuota db u q r e = .ok db1 ∧
      db1.userFeatures.length = db.userFeatures.length + 1 ∧
      hasQuota db1 u q = true ∧
      switchUserQuota db1 u q r e = .ok db1 := by
  refine ⟨insertUserFeature (deactivateQuotas db u) u fid
    (r.getD "switch quota") true e, ?_, ?_, ?_, ?_⟩
  · unfold switchUserQuota
    simp [hq, hl]
  · simp [insertUserFeature_userFeatures,
      deactivateQuotas_userFeatures]
  · exact hasQuota_switch_result huniq hl _ e
  · exact switchUserQuota_of_hasQuota
      (hasQuota_switch_result huniq hl _ e) r e

theorem C3_switch_idempotent_witness :
    (idsUniq quotaDefsDb.features = true ∧
     hasQuota quotaDefsDb "u2" "personal_workspace" = false ∧
     latestFeatureId quotaDefsDb "personal_workspace"
       FeatureKind.Quota = some 1) ∧
    (∃ db1, switchUserQuota quotaDefsDb "u2" "personal_workspace"
        none none = .ok db1 ∧
      db1.userFeatures.length
        = quotaDefsDb.userFeatures.length + 1 ∧
      hasQuota db1 "u2" "personal_workspace" = true ∧
      switchUserQuota db1 "u2" "personal_workspace" none none
        = .ok db1) :=
  ⟨⟨rfl, rfl, rfl⟩,
   C3_switch_idempotent quotaDefsDb "u2" "personal_workspace" none
     none 1 rfl rfl rfl⟩

/-! ## Claim C5 -/

/-- C5: resolving the target of `switchUserQuota` picks the
`Quota`-kind definition of the requested name with the highest
version; when no such definition row exists the call fails with the
"not found" error and the observable ledger is unchanged. -/
theorem C5_latest_version_selection (db : Db) (u q : String)
    (r : Option String) (e : Option Nat)
    (hq : hasQuota db u q = false) :
    ((∀ d ∈ db.features, ¬(d.feature = q ∧ d.type = FeatureKind.Quota))
      → switchUserQuota db u q r e
          = .error ("Quota " ++ q ++ " not found") ∧
        switchUserQuotaPost db u q r e = db) ∧
    (∀ fid, latestFeatureId db q FeatureKind.Quota = some fid →
      ∃ d ∈ db.features, d.id = fid ∧ d.feature = q ∧
        d.type = FeatureKind.Quota ∧
        (∀ d2 ∈ db.features, d2.feature = q →
          d2.type = FeatureKind.Quota → d2.version ≤ d.version) ∧
        switchUserQuota db u q r e =
          .ok (insertUserFeature (deactivateQuotas db u) u fid
            (r.getD "switch quota") true e)) := by
  constructor
  · intro hnone
    have hl := latestFeatureId_eq_none hnone
    constructor
    · unfold switchUserQuota
      simp [hq, hl]
    · unfold switchUserQuotaPost switchUserQuota
      simp [hq, hl]
  · intro fid hl
    obtain ⟨d, hdm, hdid, hdf, hdt, hmax⟩ := latestFeatureId_spec hl
    refine ⟨d, hdm, hdid, hdf, hdt, hmax, ?_⟩
    unfold switchUserQuota
    simp [hq, hl]

theorem C5_latest_version_selection_witness :
    (hasQuota quotaDefsDb "u2" "nosuch" = false ∧
     switchUserQuota quotaDefsDb "u2" "nosuch" none none
       = .error "Quota nosuch not found" ∧
     switchUserQuotaPost quotaDefsDb "u2" "nosuch" none none
       = quotaDefsDb) ∧
    (hasQuota quotaDefsDb "u2" "team_workspace" = false ∧
     ∃ d ∈ quotaDefsDb.features, d.id = 2 ∧
       d.feature = "team_workspace" ∧ d.type = FeatureKind.Quota ∧
       (∀ d2 ∈ quotaDefsDb.features, d2.feature = "team_workspace" →
         d2.type = FeatureKind.Quota → d2.version ≤ d.version) ∧
       switchUserQuota quotaDefsDb "u2" "team_workspace" none none =
         .ok (insertUserFeature (deactivateQuotas quotaDefsDb "u2")
           "u2" 2 ((none : Option String).getD "switch quota") true
           none)) :=
  ⟨⟨rfl,
    (C5_latest_version_selection quotaDefsDb "u2" "nosuch" none none
      rfl).1 (by decide)⟩,
   ⟨rfl,
    (C5_latest_version_selection quotaDefsDb "u2" "team_workspace"
      none none rfl).2 2 rfl⟩⟩

end Affine

namespace Affine

/-! ## Claim C2 -/

/-- The database after seeding the compiled-in catalog and creating the
scenario account, whose sign-up grant references the
`personal_workspace` catalog entry. -/
def seededScenarioDb : Db :=
  { features := FeaturesCatalog,
    userFeatures := [ { id := 1, userId := "acct", featureId := 8,
                        reason := "sign up", createdAt := 1,
                        activated := true, expiredAt := none } ],
    nextUserFeatureId := 2 }

/-- C2 (code bug): with the registry seeded from the compiled-in
catalog, `switchUserQuota(acct, team_workspace, "upgrade")` cannot
succeed — every catalog entry, including the Team and Personal
workspace plans, is seeded with kind `Feature`, so the `Quota`-kind
lookup finds nothing, the call throws `Quota team_workspace not
found`, and the ledger is left unchanged (one record, still
activated), contradicting the claimed successful upgrade to a Team
quota with a two-entry history. -/
theorem C2_seeded_switch_fails :
    switchUserQuota seededScenarioDb "acct" "team_workspace"
      (some "upgrade") none = .error "Quota team_workspace not found" ∧
    switchUserQuotaPost seededScenarioDb "acct" "team_workspace"
      (some "upgrade") none = seededScenarioDb ∧
    (∃ d ∈ FeaturesCatalog, d.feature = "team_workspace" ∧
      d.version = 1 ∧
      d.configs = .workspace "Team" (30 * OneMB) (100 * OneGB)
        (28 * OneDay) 100) ∧
    (∀ d ∈ FeaturesCatalog, d.type = FeatureKind.Feature) := by
  refine ⟨rfl, rfl, ?_, ?_⟩
  · decide
  · decide

/-! ## Claim C4 -/

/-- C4: `getUserQuota` fails with the `has no quota` error for every
account with no activated quota record (rather than returning a
default), and for an account whose first activated quota record
resolves to a `Quota`-kind definition it returns that record paired
with the resolved definition. -/
theorem C4_get_user_quota (db : Db) (u : String) :
    ((∀ r2 ∈ db.userFeatures,
        isActiveQuotaTypeRow db.features u r2 = false) →
      getUserQuota db u = .error ("User " ++ u ++ " has no quota")) ∧
    (∀ r0 d,
      db.userFeatures.find? (isActiveQuotaTypeRow db.features u)
        = some r0 →
      featureById db.features r0.featureId = some d →
      d.type = FeatureKind.Quota →
      getUserQuota db u = .ok (r0, d)) := by
  constructor
  · intro hall
    have hnone : db.userFeatures.find?
        (isActiveQuotaTypeRow db.features u) = none := by
      rw [List.find?_eq_none]
      intro x hx
      simp [hall x hx]
    unfold getUserQuota
    rw [hnone]
  · intro r0 d hfind hlook ht
    unfold getUserQuota quotaConfigGet
    rw [hfind]
    simp [hlook, ht]

theorem C4_get_user_quota_witness :
    ((∀ r2 ∈ quotaDefsDb.userFeatures,
        isActiveQuotaTypeRow quotaDefsDb.features "nobody" r2
          = false) ∧
     getUserQuota quotaDefsDb "nobody"
       = .error "User nobody has no quota") ∧
    (quotaDefsDb.userFeatures.find?
        (isActiveQuotaTypeRow quotaDefsDb.features "u1")
      = some { id := 1, userId := "u1", featureId := 1,
               reason := "sign up", createdAt := 1, activated := true,
               expiredAt := none } ∧
     getUserQuota quotaDefsDb "u1"
       = .ok ({ id := 1, userId := "u1", featureId := 1,
                reason := "sign up", createdAt := 1, activated := true,
                expiredAt := none },
              { id := 1, feature := "personal_workspace",
                type := FeatureKind.Quota, version := 1,
                configs := .empty })) :=
  ⟨⟨by decide, (C4_get_user_quota quotaDefsDb "nobody").1 (by decide)⟩,
   ⟨rfl,
    (C4_get_user_quota quotaDefsDb "u1").2
      { id := 1, userId := "u1", featureId := 1, reason := "sign up",
        createdAt := 1, activated := true, expiredAt := none }
      { id := 1, feature := "personal_workspace",
        type := FeatureKind.Quota, version := 1, configs := .empty }
      rfl rfl rfl⟩⟩

end Affine

namespace Affine

/-! ## Claim C6 -/

theorem quotaConfigGet_of_not_quota {fs : List Feature}
    {r : UserFeature}
    (h : rowHasKind fs FeatureKind.Quota r = false) :
    quotaConfigGet fs r.featureId = .error "DefinitionNotFound" := by
  unfold rowHasKind at h
  unfold quotaConfigGet
  cases hf : featureById fs r.featureId with
  | none => rfl
  | some d =>
    rw [hf] at h
    simp only [] at h
    simp [h]

theorem quota_history_filter_eq (fs : List Feature) (u : String) :
    ∀ rows : List UserFeature,
      (rows.filter (fun r =>
          r.userId == u && rowHasKind fs FeatureKind.Quota r)).filterMap
        (fun r => match quotaConfigGet fs r.featureId with
          | .ok d => some (r, d)
          | .error _ => none)
      = rows.filterMap (fun r =>
          if r.userId == u then
            match quotaConfigGet fs r.featureId with
            | .ok d => some (r, d)
            | .error _ => none
          else none) := by
  intro rows
  induction rows with
  | nil => rfl
  | cons r rs ih =>
    rw [List.filter_cons, List.filterMap_cons]
    by_cases hu : (r.userId == u) = true
    · by_cases hk : rowHasKind fs FeatureKind.Quota r = true
      · have hcond : (r.userId == u &&
            rowHasKind fs FeatureKind.Quota r) = true := by
          simp [hu, hk]
        rw [hcond]
        simp only [if_true, List.filterMap_cons, hu, ih]
      · have hkf : rowHasKind fs FeatureKind.Quota r = false := by
          simpa using hk
        have hcond : (r.userId == u &&
            rowHasKind fs FeatureKind.Quota r) = false := by
          simp [hkf]
        rw [hcond]
        have hg := quotaConfigGet_of_not_quota hkf
        simp only [Bool.false_eq_true, if_false, hu, if_true, hg, ih]
    · have huf : (r.userId == u) = false := by simpa using hu
      have hcond : (r.userId == u &&
          rowHasKind fs FeatureKind.Quota r) = false := by
        simp [huf]
      rw [hcond]
      simp only [Bool.false_eq_true, if_false, huf, ih]

theorem fst_filterMap_sublist
    (g : UserFeature → Option (UserFeature × Feature))
    (hg : ∀ r x, g r = some x → x.1 = r) :
    ∀ l : List UserFeature,
      List.Sublist ((l.filterMap g).map Prod.fst) l := by
  intro l
  induction l with
  | nil => simp
  | cons a l ih =>
    cases hga : g a with
    | none =>
      rw [List.filterMap_cons, hga]
      exact ih.cons a
    | some x =>
      rw [List.filterMap_cons, hga]
      rw [List.map_cons, hg a x hga]
      exact ih.cons₂ a

/-- C6: `getUserQuotas` returns exactly the account's rows paired with
their resolved `Quota`-kind definitions, traversing the ledger in
insertion order and silently omitting every record whose definition
fails to resolve (the query itself is total); when the ledger's row
ids are strictly increasing, so are the ids of the returned records. -/
theorem C6_quota_history (db : Db) (u : String) :
    getUserQuotas db u = specAllQuotaHistory db u ∧
    (db.userFeatures.Pairwise (fun a b => a.id < b.id) →
      (getUserQuotas db u).Pairwise (fun a b => a.1.id < b.1.id)) := by
  have heq : getUserQuotas db u = specAllQuotaHistory db u := by
    unfold getUserQuotas specAllQuotaHistory
    exact quota_history_filter_eq db.features u db.userFeatures
  refine ⟨heq, ?_⟩
  intro hpw
  rw [heq]
  have hg : ∀ r x, (fun r2 : UserFeature =>
      if r2.userId == u then
        match quotaConfigGet db.features r2.featureId with
        | .ok d => some (r2, d)
        | .error _ => none
      else none) r = some x → x.1 = r := by
    intro r x h
    simp only [] at h
    by_cases hu : (r.userId == u) = true
    · rw [if_pos hu] at h
      cases hq : quotaConfigGet db.features r.featureId with
      | ok d =>
        rw [hq] at h
        cases h
        rfl
      | error e =>
        rw [hq] at h
        cases h
    · rw [if_neg hu] at h
      cases h
  have hsub := fst_filterMap_sublist _ hg db.userFeatures
  have hpw2 := hpw.sublist hsub
  rw [List.pairwise_map] at hpw2
  unfold specAllQuotaHistory
  exact hpw2

theorem C6_quota_history_witness :
    quotaDefsDb.userFeatures.Pairwise (fun a b => a.id < b.id) ∧
    (getUserQuotas quotaDefsDb "u1"
       = specAllQuotaHistory quotaDefsDb "u1" ∧
     (getUserQuotas quotaDefsDb "u1").Pairwise
       (fun a b => a.1.id < b.1.id)) := by
  have hpw : quotaDefsDb.userFeatures.Pairwise
      (fun a b => a.id < b.id) := by
    unfold quotaDefsDb
    simp
  exact ⟨hpw, (C6_quota_history quotaDefsDb "u1").1,
    (C6_quota_history quotaDefsDb "u1").2 hpw⟩

end Affine

namespace Affine

/-! ## addUserFeatures lemmas -/

theorem latestFeatureId_exists {db : Db} {g : String}
    {k : FeatureKind} (d : Feature) (hd : d ∈ db.features)
    (hf : d.feature = g) (ht : d.type = k) :
    ∃ fid, latestFeatureId db g k = some fid := by
  unfold latestFeatureId
  cases hp : pickLatest (db.features.filter
      (fun d2 => d2.feature == g && d2.type == k)) with
  | none =>
    exfalso
    have hnil := pickLatest_eq_none hp
    have : d ∈ db.features.filter
        (fun d2 => d2.feature == g && d2.type == k) :=
      List.mem_filter.mpr ⟨hd, by simp [hf, ht]⟩
    rw [hnil] at this
    cases this
  | some dm => exact ⟨dm.id, rfl⟩

theorem hasActiveFeature_insert (db2 : Db) (u f : String) (fid : Nat)
    (rs : String) (e : Option Nat) {d : Feature}
    (hlook : featureById db2.features fid = some d) :
    hasActiveFeature (insertUserFeature db2 u fid rs true e) u f
      = (hasActiveFeature db2 u f ||
         (d.feature == f && d.type == FeatureKind.Feature)) := by
  unfold hasActiveFeature
  simp only [insertUserFeature_userFeatures, insertUserFeature_features,
    List.any_append, List.any_cons, List.any_nil, Bool.or_false]
  congr 1
  unfold isActiveFeatureNamed
  simp [hlook]

theorem featureRowCount_insert (db2 : Db) (u f : String) (fid : Nat)
    (rs : String) (act : Bool) (e : Option Nat) {d : Feature}
    (hlook : featureById db2.features fid = some d) :
    featureRowCount (insertUserFeature db2 u fid rs act e) u f
      = featureRowCount db2 u f +
        (if d.feature = f ∧ d.type = FeatureKind.Feature then 1
         else 0) := by
  unfold featureRowCount
  simp only [insertUserFeature_userFeatures, insertUserFeature_features,
    List.filter_append, List.length_append]
  congr 1
  rw [List.filter_cons]
  unfold isFeatureRowNamed
  simp only [mkUserFeature_userId, mkUserFeature_featureId, hlook,
    beq_self_eq_true, Bool.true_and]
  by_cases hc : d.feature = f ∧ d.type = FeatureKind.Feature
  · have : (d.feature == f && d.type == FeatureKind.Feature) = true :=
      by simp [hc.1, hc.2]
    simp [this, hc]
  · have : (d.feature == f && d.type == FeatureKind.Feature) = false
        := by
      rcases not_and_or.mp hc with hn | hn <;> simp [hn]
    simp [this, hc]

theorem addFeaturesLoop_all_active (u : String) :
    ∀ (fs : List String) (db : Db),
      (∀ g ∈ fs, hasActiveFeature db u g = true) →
      addFeaturesLoop u db fs = .ok db := by
  intro fs
  induction fs with
  | nil => intro db _; rfl
  | cons g rest ih =>
    intro db h
    unfold addFeaturesLoop addFeatureStep
    have hg := h g (List.mem_cons_self g rest)
    simp only [hg, if_true]
    exact ih db (fun g2 hg2 => h g2 (List.mem_cons_of_mem g hg2))

end Affine

namespace Affine

theorem addFeaturesLoop_spec (u : String) :
    ∀ (fs : List String) (db : Db),
      idsUniq db.features = true →
      (∀ g ∈ fs, ∃ d ∈ db.features, d.feature = g ∧
        d.type = FeatureKind.Feature) →
      ∃ db1, addFeaturesLoop u db fs = .ok db1 ∧
        db1.features = db.features ∧
        (∃ tail, db1.userFeatures = db.userFeatures ++ tail ∧
          ∀ r ∈ tail, r.userId = u ∧ r.activated = true ∧
            r.reason = "sign up" ∧
            ∃ d ∈ db.features, d.id = r.featureId ∧ d.feature ∈ fs ∧
              d.type = FeatureKind.Feature) ∧
        (∀ f, featureRowCount db1 u f = featureRowCount db u f +
          (if f ∈ fs ∧ hasActiveFeature db u f = false then 1
           else 0)) ∧
        (∀ g ∈ fs, hasActiveFeature db1 u g = true) ∧
        (∀ g, hasActiveFeature db u g = true →
          hasActiveFeature db1 u g = true) := by
  intro fs
  induction fs with
  | nil =>
    intro db h1 h2
    refine ⟨db, rfl, rfl, ⟨[], by simp, by simp⟩, ?_, by simp,
      fun g h => h⟩
    intro f
    simp
  | cons g rest ih =>
    intro db h1 h2
    by_cases hact : hasActiveFeature db u g = true
    · obtain ⟨db1, hloop, hfeat, ⟨tail, htail, htailP⟩, hcount,
        hallact, hmono⟩ :=
        ih db h1 (fun g2 hg2 => h2 g2 (List.mem_cons_of_mem g hg2))
      have hstep : addFeaturesLoop u db (g :: rest)
          = addFeaturesLoop u db rest := by
        simp [addFeaturesLoop, addFeatureStep, hact]
      refine ⟨db1, by rw [hstep]; exact hloop, hfeat,
        ⟨tail, htail, ?_⟩, ?_, ?_, hmono⟩
      · intro r hr
        obtain ⟨ha, hb, hc, d, hdm, hdid, hdf, hdt⟩ := htailP r hr
        exact ⟨ha, hb, hc, d, hdm, hdid,
          List.mem_cons_of_mem g hdf, hdt⟩
      · intro f
        rw [hcount f]
        congr 1
        by_cases hf : f = g
        · rw [hf]
          simp [hact]
        · simp [List.mem_cons, hf]
      · intro g2 hg2
        rcases List.mem_cons.mp hg2 with rfl | hg3
        · exact hmono g2 hact
        · exact hallact g2 hg3
    · have hactf : hasActiveFeature db u g = false := by
        simpa using hact
      obtain ⟨d0, hd0m, hd0f, hd0t⟩ := h2 g (List.mem_cons_self g rest)
      obtain ⟨fid, hl⟩ := latestFeatureId_exists d0 hd0m hd0f hd0t
      obtain ⟨d1, hd1m, hd1id, hd1f, hd1t, _⟩ := latestFeatureId_spec hl
      have hlook : featureById db.features fid = some d1 := by
        have h3 := idsUniq_featureById h1 hd1m
        rwa [hd1id] at h3
      have hstep : addFeaturesLoop u db (g :: rest)
          = addFeaturesLoop u
              (insertUserFeature db u fid "sign up" true none) rest := by
        simp [addFeaturesLoop, addFeatureStep, hactf, hl]
      have h1' : idsUniq (insertUserFeature db u fid "sign up" true
          none).features = true := by
        rw [insertUserFeature_features]
        exact h1
      have h2' : ∀ g2 ∈ rest, ∃ d ∈ (insertUserFeature db u fid
          "sign up" true none).features, d.feature = g2 ∧
          d.type = FeatureKind.Feature := by
        rw [insertUserFeature_features]
        exact fun g2 hg2 => h2 g2 (List.mem_cons_of_mem g hg2)
      obtain ⟨db1, hloop, hfeat, ⟨tail, htail, htailP⟩, hcount,
        hallact, hmono⟩ :=
        ih (insertUserFeature db u fid "sign up" true none) h1' h2'
      have hfeat2 : db1.features = db.features := by
        rw [hfeat, insertUserFeature_features]
      have hains : ∀ f, hasActiveFeature
          (insertUserFeature db u fid "sign up" true none) u f
          = (hasActiveFeature db u f ||
             (d1.feature == f && d1.type == FeatureKind.Feature)) :=
        fun f => hasActiveFeature_insert db u f fid "sign up" none hlook
      have hcins : ∀ f, featureRowCount
          (insertUserFeature db u fid "sign up" true none) u f
          = featureRowCount db u f +
            (if d1.feature = f ∧ d1.type = FeatureKind.Feature then 1
             else 0) :=
        fun f => featureRowCount_insert db u f fid "sign up" true none
          hlook
      refine ⟨db1, by rw [hstep]; exact hloop, hfeat2,
        ⟨mkUserFeature db u fid "sign up" true none :: tail, ?_, ?_⟩,
        ?_, ?_, ?_⟩
      · rw [htail, insertUserFeature_userFeatures, List.append_assoc]
        rfl
      · intro r hr
        rcases List.mem_cons.mp hr with rfl | hr2
        · refine ⟨rfl, rfl, rfl, d1, hd1m, hd1id, ?_, hd1t⟩
          rw [hd1f]
          exact List.mem_cons_self g rest
        · obtain ⟨ha, hb, hc, d, hdm, hdid, hdf, hdt⟩ := htailP r hr2
          rw [insertUserFeature_features] at hdm
          exact ⟨ha, hb, hc, d, hdm, hdid,
            List.mem_cons_of_mem g hdf, hdt⟩
      · intro f
        rw [hcount f, hcins f]
        by_cases hfg : f = g
        · have hc1 : d1.feature = f ∧ d1.type = FeatureKind.Feature :=
            ⟨by rw [hd1f, hfg], hd1t⟩
          rw [if_pos hc1]
          have hTrue : hasActiveFeature (insertUserFeature db u fid
              "sign up" true none) u f = true := by
            rw [hains f]
            have hb : (d1.feature == f &&
                d1.type == FeatureKind.Feature) = true := by
              simp [hc1.1, hc1.2]
            rw [hb]
            simp
          have h0 : ¬(f ∈ rest ∧ hasActiveFeature (insertUserFeature
              db u fid "sign up" true none) u f = false) := by
            rw [hTrue]
            rintro ⟨_, hfalse⟩
            cases hfalse
          rw [if_neg h0]
          have hR : f ∈ g :: rest ∧ hasActiveFeature db u f = false :=
            ⟨by rw [hfg]; exact List.mem_cons_self g rest,
             by rw [hfg]; exact hactf⟩
          rw [if_pos hR]
        · have hc0 : ¬(d1.feature = f ∧
              d1.type = FeatureKind.Feature) := by
            rintro ⟨he, _⟩
            exact hfg (by rw [← he, hd1f])
          rw [if_neg hc0, Nat.add_zero]
          have hsame : hasActiveFeature (insertUserFeature db u fid
              "sign up" true none) u f = hasActiveFeature db u f := by
            rw [hains f]
            have hb : (d1.feature == f) = false := by
              rw [hd1f]
              simp [Ne.symm hfg]
            rw [hb]
            simp
          rw [hsame]
          have hiff : f ∈ g :: rest ↔ f ∈ rest := by
            rw [List.mem_cons]
            simp [hfg]
          by_cases hcond : f ∈ rest ∧ hasActiveFeature db u f = false
          · rw [if_pos hcond, if_pos ⟨hiff.mpr hcond.1, hcond.2⟩]
          · rw [if_neg hcond,
              if_neg (fun hc => hcond ⟨hiff.mp hc.1, hc.2⟩)]
      · intro g2 hg2
        rcases List.mem_cons.mp hg2 with rfl | hg3
        · have hT : hasActiveFeature (insertUserFeature db u fid
              "sign up" true none) u g2 = true := by
            rw [hains g2]
            have hb : (d1.feature == g2 &&
                d1.type == FeatureKind.Feature) = true := by
              simp [hd1f, hd1t]
            rw [hb]
            simp
          exact hmono g2 hT
        · exact hallact g2 hg3
      · intro g2 hg2
        apply hmono
        rw [hains g2, hg2]
        simp

end Affine

namespace Affine

/-! ## Claim C7 -/

theorem activeFeature_imp_row {fs : List Feature} {u f : String}
    {r : UserFeature} (h : isActiveFeatureNamed fs u f r = true) :
    isFeatureRowNamed fs u f r = true := by
  unfold isActiveFeatureNamed at h
  unfold isFeatureRowNamed
  simp only [Bool.and_eq_true] at h ⊢
  exact ⟨h.1.1, h.2⟩

theorem count_zero_not_active {db : Db} {u f : String}
    (h : featureRowCount db u f = 0) :
    hasActiveFeature db u f = false := by
  unfold featureRowCount at h
  rw [List.length_eq_zero, List.filter_eq_nil_iff] at h
  unfold hasActiveFeature
  rw [List.any_eq_false]
  intro r hr
  intro hcontra
  exact h r hr (activeFeature_imp_row hcontra)

/-- A definition table with two `Feature`-kind entries and a ledger in
which `u1` already holds an activated `early_access` grant. -/
def featureDefsDb : Db :=
  { features := [ { id := 1, feature := "copilot",
                    type := FeatureKind.Feature, version := 1,
                    configs := .empty },
                  { id := 2, feature := "early_access",
                    type := FeatureKind.Feature, version := 1,
                    configs := .whitelist [] } ],
    userFeatures := [ { id := 1, userId := "u1", featureId := 2,
                        reason := "sign up", createdAt := 1,
                        activated := true, expiredAt := none } ],
    nextUserFeatureId := 2 }

/-- C7: granting a batch of features is per-name idempotent — when
every requested name has a seeded `Feature`-kind definition, the batch
commits (an already-granted name never aborts the rest), each
already-active name is skipped without inserting a row, repeating the
whole call changes nothing, and a name with no prior history ends with
exactly one activation record. -/
theorem C7_grant_batch_idempotent (db : Db) (u : String)
    (fs : List String) (huniq : idsUniq db.features = true)
    (hdefs : ∀ g ∈ fs, ∃ d ∈ db.features, d.feature = g ∧
      d.type = FeatureKind.Feature) :
    ∃ db1, addUserFeatures db u fs = .ok db1 ∧
      (∀ f ∈ fs, hasActiveFeature db u f = true →
        featureRowCount db1 u f = featureRowCount db u f) ∧
      (∀ f ∈ fs, hasActiveFeature db1 u f = true) ∧
      addUserFeatures db1 u fs = .ok db1 ∧
      (∀ f ∈ fs, featureRowCount db u f = 0 →
        featureRowCount db1 u f = 1) := by
  obtain ⟨db1, hloop, _, _, hcount, hallact, _⟩ :=
    addFeaturesLoop_spec u fs db huniq hdefs
  refine ⟨db1, hloop, ?_, hallact, ?_, ?_⟩
  · intro f _ hact
    rw [hcount f]
    simp [hact]
  · exact addFeaturesLoop_all_active u fs db1 hallact
  · intro f hf h0
    have hnact := count_zero_not_active h0
    rw [hcount f, h0]
    simp [hf, hnact]

theorem C7_grant_batch_idempotent_witness :
    (idsUniq featureDefsDb.features = true ∧
     (∀ g ∈ ["copilot", "early_access"],
       ∃ d ∈ featureDefsDb.features, d.feature = g ∧
         d.type = FeatureKind.Feature)) ∧
    (∃ db1, addUserFeatures featureDefsDb "u1"
        ["copilot", "early_access"] = .ok db1 ∧
      (∀ f ∈ ["copilot", "early_access"],
        hasActiveFeature featureDefsDb "u1" f = true →
        featureRowCount db1 "u1" f
          = featureRowCount featureDefsDb "u1" f) ∧
      (∀ f ∈ ["copilot", "early_access"],
        hasActiveFeature db1 "u1" f = true) ∧
      addUserFeatures db1 "u1" ["copilot", "early_access"]
        = .ok db1 ∧
      (∀ f ∈ ["copilot", "early_access"],
        featureRowCount featureDefsDb "u1" f = 0 →
        featureRowCount db1 "u1" f = 1)) :=
  ⟨⟨rfl, by decide⟩,
   C7_grant_batch_idempotent featureDefsDb "u1"
     ["copilot", "early_access"] rfl (by decide)⟩

/-! ## Claim C9 -/

/-- A ledger with one activated copilot grant for `u1`, over a
definition table that also seeds the `personal_workspace` feature. -/
def c9Db : Db :=
  { features := [ { id := 1, feature := "copilot",
                    type := FeatureKind.Feature, version := 1,
                    configs := .empty },
                  { id := 2, feature := "personal_workspace",
                    type := FeatureKind.Feature, version := 1,
                    configs := .empty } ],
    userFeatures := [ { id := 1, userId := "u1", featureId := 1,
                        reason := "grant", createdAt := 1,
                        activated := true, expiredAt := none } ],
    nextUserFeatureId := 2 }

/-- C9 counterexample: for an already-registered existing user, the
non-empty update payload `{registered}` is emptied by the conditional
`delete data.registered` before the key-count check, so `fulfillUser`
performs no ledger mutation at all — the user's activated record stays
activated, refuting the claim that every non-empty payload triggers
the deactivate-and-regrant path. -/
theorem C9_counterexample :
    (["registered"] : List String) ≠ [] ∧
    fulfillUserUpdate c9Db
      { registered := true, emailVerified := false } "u1"
      UserGroup.User ["registered"] = .ok c9Db ∧
    c9Db.userFeatures.any (fun r => r.activated) = true := by
  refine ⟨?_, rfl, rfl⟩
  intro h
  cases h

/-- C9 (amended): for every existing user, when the update payload is
still non-empty after the conditional drops of the `registered` and
`emailVerifiedAt` keys, `fulfillUser` deactivates every activated
record of the user regardless of kind and then re-grants only the
group's features as fresh records, so all previously existing records
of the user are inactive afterwards. -/
theorem C9_fulfill_deactivates_all (db : Db) (user : UserRow)
    (uid : String) (group : UserGroup) (dataKeys : List String)
    (hkeys : (remainingDataKeys user dataKeys).isEmpty = false)
    (huniq : idsUniq db.features = true)
    (hdefs : ∀ g ∈ groupFeatures group, ∃ d ∈ db.features,
      d.feature = g ∧ d.type = FeatureKind.Feature) :
    ∃ db1, fulfillUserUpdate db user uid group dataKeys = .ok db1 ∧
      ∃ tail, db1.userFeatures
          = (deactivateAllRows db uid).userFeatures ++ tail ∧
        (∀ r ∈ (deactivateAllRows db uid).userFeatures,
          r.userId = uid → r.activated = false) ∧
        (∀ r ∈ tail, r.userId = uid ∧ r.activated = true ∧
          ∃ d ∈ db.features, d.id = r.featureId ∧
            d.feature ∈ groupFeatures group ∧
            d.type = FeatureKind.Feature) := by
  have huniq' : idsUniq (deactivateAllRows db uid).features = true := by
    rw [deactivateAllRows_features]
    exact huniq
  have hdefs' : ∀ g ∈ groupFeatures group,
      ∃ d ∈ (deactivateAllRows db uid).features, d.feature = g ∧
        d.type = FeatureKind.Feature := by
    rw [deactivateAllRows_features]
    exact hdefs
  obtain ⟨db1, hloop, _, ⟨tail, htail, htailP⟩, _, _, _⟩ :=
    addFeaturesLoop_spec uid (groupFeatures group)
      (deactivateAllRows db uid) huniq' hdefs'
  refine ⟨db1, ?_, tail, htail,
    deactivateAllRows_inactive db uid, ?_⟩
  · unfold fulfillUserUpdate
    simp only [hkeys, Bool.false_eq_true, if_false]
    exact hloop
  · intro r hr
    obtain ⟨ha, hb, _, d, hdm, hdid, hdf, hdt⟩ := htailP r hr
    rw [deactivateAllRows_features] at hdm
    exact ⟨ha, hb, d, hdm, hdid, hdf, hdt⟩

theorem C9_fulfill_deactivates_all_witness :
    ((remainingDataKeys { registered := false, emailVerified := false }
        ["name"]).isEmpty = false ∧
     idsUniq c9Db.features = true ∧
     (∀ g ∈ groupFeatures UserGroup.User, ∃ d ∈ c9Db.features,
       d.feature = g ∧ d.type = FeatureKind.Feature)) ∧
    (∃ db1, fulfillUserUpdate c9Db
        { registered := false, emailVerified := false } "u1"
        UserGroup.User ["name"] = .ok db1 ∧
      ∃ tail, db1.userFeatures
          = (deactivateAllRows c9Db "u1").userFeatures ++ tail ∧
        (∀ r ∈ (deactivateAllRows c9Db "u1").userFeatures,
          r.userId = "u1" → r.activated = false) ∧
        (∀ r ∈ tail, r.userId = "u1" ∧ r.activated = true ∧
          ∃ d ∈ c9Db.features, d.id = r.featureId ∧
            d.feature ∈ groupFeatures UserGroup.User ∧
            d.type = FeatureKind.Feature)) :=
  ⟨⟨rfl, rfl, by decide⟩,
   C9_fulfill_deactivates_all c9Db
     { registered := false, emailVerified := false } "u1"
     UserGroup.User ["name"] rfl rfl (by decide)⟩

end Affine
